import Mathlib

/-!
Verification development for the `vassal` singular spectrum analysis library.

The definitions below are a shallow embedding of the Python sources:

* `src/vassal/ssa.py` — the `ssa` factory, `BasicSSA` (trajectory embedding,
  reconstruction by elementary matrices and anti-diagonal averaging) and
  `ToeplitzSSA` (zero-padded sliding-window embedding and lag-covariance matrix);
* `src/vassal/base.py` — `BaseSSA` (group registry, `reconstruct`, the `groups`
  property, the four SVD backend wrappers).

Machine floats are modelled as real numbers; Python `dict`s as association
lists; Python exceptions as explicit error values.  The helper module `dtypes`
imported by `base.py` is not part of the sources, so the few helpers it
provides are modelled from the specification and marked as such.
-/

namespace Vassal

/-! ### Trajectory embedding and reconstruction for `BasicSSA`

Dimensions are phrased as `window = l + 1`, `K = k + 1` and sequence length
`N = window + K - 1 = l + k + 1`, so that no natural subtraction occurs.
-/

/-- Embedding of `BasicSSA._embedseries` (`ssa.py` lines 144-163): the
trajectory matrix of shape `(window, K)` whose column `c` is the slice
`ts[c : c + window]`, i.e. entry `(r, c)` is `ts[c + r]`. -/
def trajectoryMatrix (l k : ℕ) (ts : Fin (l + k + 1) → ℝ) :
    Matrix (Fin (l + 1)) (Fin (k + 1)) ℝ :=
  Matrix.of fun r c => ts ⟨(c : ℕ) + (r : ℕ), by omega⟩

/-- Embedding of the loop body of `BasicSSA._reconstruct_group`
(`ssa.py` lines 181-187): for a component index `i`,
`s_i = sqrt(s[i])`, `v_i = x.T * u_i / s_i` and the elementary matrix
`x_i = s_i * u_i * v_i.T`.  Here `u` is the stored left-vector matrix,
`x` the trajectory matrix and `s` the stored singular value `s[i]`. -/
noncomputable def elementaryMatrix (l k : ℕ) (u : Matrix (Fin (l + 1)) (Fin (l + 1)) ℝ)
    (x : Matrix (Fin (l + 1)) (Fin (k + 1)) ℝ) (s : ℝ) (i : Fin (l + 1)) :
    Matrix (Fin (l + 1)) (Fin (k + 1)) ℝ :=
  Matrix.of fun r c =>
    Real.sqrt s * (u r i * ((∑ a, x a c * u a i) / Real.sqrt s))

/-- Cells of the anti-diagonal `row + column = t` of a `(window, K)` matrix.
`numpy`'s `x[::-1, :].diagonal(i)` for `i = t - window + 1` enumerates exactly
these cells. -/
def antidiagCells (l k t : ℕ) : Finset (Fin (l + 1) × Fin (k + 1)) :=
  Finset.univ.filter fun p => (p.1 : ℕ) + (p.2 : ℕ) = t

/-- Embedding of `BasicSSA._hankelmatrix_to_ts` (`ssa.py` lines 195-213):
entry `t` of the output sequence is the mean of the cells of the `t`-th
anti-diagonal. -/
noncomputable def hankelToTs (l k : ℕ) (x : Matrix (Fin (l + 1)) (Fin (k + 1)) ℝ)
    (t : Fin (l + k + 1)) : ℝ :=
  (∑ p ∈ antidiagCells l k (t : ℕ), x p.1 p.2) / (antidiagCells l k (t : ℕ)).card

/-- Embedding of `BasicSSA._reconstruct_group` (`ssa.py` lines 168-193): sum
the elementary matrices of the selected component indices, then average the
anti-diagonals.  The stored singular values have length `R = min(window, K)`
(the shape of the value vector returned by a full SVD), and each selected
index addresses both `s` and a column of `u`; `hR` records `R ≤ window`. -/
noncomputable def reconstructGroup (l k R : ℕ) (hR : R ≤ l + 1)
    (u : Matrix (Fin (l + 1)) (Fin (l + 1)) ℝ) (s : Fin R → ℝ)
    (x : Matrix (Fin (l + 1)) (Fin (k + 1)) ℝ) (idx : Finset (Fin R)) :
    Fin (l + k + 1) → ℝ :=
  hankelToTs l k (∑ i ∈ idx, elementaryMatrix l k u x (s i) (Fin.castLE hR i))

/-! ### Helper lemmas for the round-trip property -/

/-- Averaging the anti-diagonals of the trajectory matrix recovers the
sequence: every cell of the `t`-th anti-diagonal holds `ts t`, and each
anti-diagonal of the `(window, K)` trajectory matrix is non-empty. -/
theorem hankelToTs_trajectoryMatrix (l k : ℕ) (ts : Fin (l + k + 1) → ℝ)
    (t : Fin (l + k + 1)) :
    hankelToTs l k (trajectoryMatrix l k ts) t = ts t := by
  have ht := t.isLt
  have hcell : ∀ p ∈ antidiagCells l k (t : ℕ),
      trajectoryMatrix l k ts p.1 p.2 = ts t := by
    intro p hp
    have hpt : (p.1 : ℕ) + (p.2 : ℕ) = (t : ℕ) := (Finset.mem_filter.mp hp).2
    have h2 : ((p.2 : ℕ) + (p.1 : ℕ)) = (t : ℕ) := by omega
    simp only [trajectoryMatrix, Matrix.of_apply]
    congr 1
    exact Fin.val_injective h2
  have hne : (antidiagCells l k (t : ℕ)).Nonempty := by
    by_cases h : (t : ℕ) ≤ k
    · refine ⟨(⟨0, by omega⟩, ⟨(t : ℕ), by omega⟩), ?_⟩
      simp [antidiagCells]
    · refine ⟨(⟨(t : ℕ) - k, by omega⟩, ⟨k, by omega⟩), ?_⟩
      simp only [antidiagCells, Finset.mem_filter, Finset.mem_univ, true_and]
      omega
  have hc : ((antidiagCells l k (t : ℕ)).card : ℝ) ≠ 0 := by
    have hpos := hne.card_pos
    exact ne_of_gt (by exact_mod_cast hpos)
  rw [hankelToTs, Finset.sum_congr rfl hcell, Finset.sum_const, nsmul_eq_mul]
  exact mul_div_cancel_left₀ _ hc

/-- Orthogonality of the stored left vectors, entrywise: with `uᵀ * u = 1`
the inner product of columns `j` and `i` of `u` is `1` when `j = i` and `0`
otherwise. -/
theorem column_inner_product (m : ℕ) (u : Matrix (Fin m) (Fin m) ℝ)
    (hUtU : u.transpose * u = 1) (j i : Fin m) :
    (∑ a, u a j * u a i) = if j = i then 1 else 0 := by
  have h : (u.transpose * u) j i = ∑ a, u a j * u a i := by
    simp [Matrix.mul_apply, Matrix.transpose_apply]
  rw [← h, hUtU, Matrix.one_apply]

/-- Projection step of the reconstruction: if the stored triple is a true
singular value decomposition of `x`, with `u` orthogonal, then `xᵀ` applied
to column `i` of `u` yields `s i` times the matching right vector. -/
theorem svd_column_projection (l k R : ℕ) (hRl : R ≤ l + 1) (hRk : R ≤ k + 1)
    (u : Matrix (Fin (l + 1)) (Fin (l + 1)) ℝ)
    (v : Matrix (Fin (k + 1)) (Fin (k + 1)) ℝ) (s : Fin R → ℝ)
    (x : Matrix (Fin (l + 1)) (Fin (k + 1)) ℝ)
    (hUtU : u.transpose * u = 1)
    (hsvd : ∀ r c, x r c = ∑ i, s i * u r (Fin.castLE hRl i) * v c (Fin.castLE hRk i))
    (i : Fin R) (c : Fin (k + 1)) :
    (∑ a, x a c * u a (Fin.castLE hRl i)) = s i * v c (Fin.castLE hRk i) := by
  calc (∑ a, x a c * u a (Fin.castLE hRl i))
      = ∑ a, (∑ j, s j * u a (Fin.castLE hRl j) * v c (Fin.castLE hRk j))
          * u a (Fin.castLE hRl i) := by
        refine Finset.sum_congr rfl fun a _ => ?_
        rw [hsvd a c]
    _ = ∑ a, ∑ j, (s j * u a (Fin.castLE hRl j) * v c (Fin.castLE hRk j))
          * u a (Fin.castLE hRl i) := by
        refine Finset.sum_congr rfl fun a _ => ?_
        exact Finset.sum_mul _ _ _
    _ = ∑ j, ∑ a, (s j * u a (Fin.castLE hRl j) * v c (Fin.castLE hRk j))
          * u a (Fin.castLE hRl i) := Finset.sum_comm
    _ = ∑ j, (s j * v c (Fin.castLE hRk j))
          * ∑ a, u a (Fin.castLE hRl j) * u a (Fin.castLE hRl i) := by
        refine Finset.sum_congr rfl fun j _ => ?_
        rw [Finset.mul_sum]
        refine Finset.sum_congr rfl fun a _ => ?_
        ring
    _ = ∑ j, (s j * v c (Fin.castLE hRk j))
          * (if Fin.castLE hRl j = Fin.castLE hRl i then 1 else 0) := by
        refine Finset.sum_congr rfl fun j _ => ?_
        rw [column_inner_product (l + 1) u hUtU]
    _ = ∑ j, (if j = i then s j * v c (Fin.castLE hRk j) else 0) := by
        refine Finset.sum_congr rfl fun j _ => ?_
        have hcast : (Fin.castLE hRl j = Fin.castLE hRl i) ↔ j = i := by
          constructor
          · intro h
            exact Fin.ext (by simpa using congrArg Fin.val h)
          · intro h; rw [h]
        rw [mul_ite, mul_one, mul_zero]
        simp only [hcast]
    _ = s i * v c (Fin.castLE hRk i) := by
        rw [Finset.sum_ite_eq' Finset.univ i fun j => s j * v c (Fin.castLE hRk j)]
        simp

/-- C1: For every finite real sequence of length `N = l + k + 1 ≥ 2` and valid
window `window = l + 1`, after a full-rank exact decomposition with
`R = min(window, K)` components — formalised as: the stored triple `(u, s, v)`
is a true singular value decomposition of the trajectory matrix, i.e. `u` and
`v` are orthogonal, all stored values are positive (full rank), and the
trajectory matrix equals `∑ i, s i • uᵢ vᵢᵀ` — reconstructing the group of all
`R` component indices (the `ssa_reconstruction` entry, which
`BaseSSA.__getitem__` computes as `_reconstruct_group(range(R))`) yields the
original sequence exactly. -/
theorem full_rank_reconstruction_roundtrip (l k R : ℕ)
    (hRl : R ≤ l + 1) (hRk : R ≤ k + 1)
    (hfull : R = min (l + 1) (k + 1))
    (ts : Fin (l + k + 1) → ℝ)
    (u : Matrix (Fin (l + 1)) (Fin (l + 1)) ℝ)
    (v : Matrix (Fin (k + 1)) (Fin (k + 1)) ℝ)
    (s : Fin R → ℝ)
    (hU : u * u.transpose = 1) (hV : v * v.transpose = 1)
    (hpos : ∀ i, 0 < s i)
    (hsvd : ∀ r c, trajectoryMatrix l k ts r c =
      ∑ i, s i * u r (Fin.castLE hRl i) * v c (Fin.castLE hRk i)) :
    reconstructGroup l k R hRl u s (trajectoryMatrix l k ts) Finset.univ = ts := by
  have hUtU : u.transpose * u = 1 := Matrix.mul_eq_one_comm.mp hU
  funext t
  rw [reconstructGroup]
  have hsum : (∑ i ∈ Finset.univ,
      elementaryMatrix l k u (trajectoryMatrix l k ts) (s i)
        (Fin.castLE hRl i)) = trajectoryMatrix l k ts := by
    ext r c
    rw [Matrix.sum_apply]
    have hterm : ∀ i : Fin R,
        elementaryMatrix l k u (trajectoryMatrix l k ts) (s i)
          (Fin.castLE hRl i) r c
        = s i * u r (Fin.castLE hRl i) * v c (Fin.castLE hRk i) := by
      intro i
      have hkey := svd_column_projection l k R hRl hRk
        u v s (trajectoryMatrix l k ts) hUtU hsvd i c
      simp only [elementaryMatrix, Matrix.of_apply]
      rw [hkey]
      have hs : Real.sqrt (s i) ≠ 0 := ne_of_gt (Real.sqrt_pos.mpr (hpos i))
      field_simp
      ring
    rw [Finset.sum_congr rfl fun i _ => hterm i]
    exact (hsvd r c).symm
  rw [hsum]
  exact hankelToTs_trajectoryMatrix l k ts t

/-- Witness for C1: the sequence `(3, 4)` with window `1`, `K = 2`,
`R = min(1, 2) = 1`, and the explicit exact decomposition
`u = [[1]]`, `s = [5]`, `v = [[3/5, -4/5], [4/5, 3/5]]` of its trajectory
matrix `[[3, 4]]`; the reconstruction of all `R` indices returns `(3, 4)`. -/
theorem full_rank_reconstruction_roundtrip_witness :
    ((!![(1 : ℝ)]) * (!![(1 : ℝ)]).transpose = 1)
    ∧ ((!![(3 / 5 : ℝ), -(4 / 5); 4 / 5, 3 / 5])
        * (!![(3 / 5 : ℝ), -(4 / 5); 4 / 5, 3 / 5]).transpose = 1)
    ∧ (∀ i : Fin 1, 0 < (![(5 : ℝ)]) i)
    ∧ (∀ r c, trajectoryMatrix 0 1 ![(3 : ℝ), 4] r c =
        ∑ i : Fin 1, (![(5 : ℝ)]) i * (!![(1 : ℝ)]) r (Fin.castLE (by omega) i)
          * (!![(3 / 5 : ℝ), -(4 / 5); 4 / 5, 3 / 5]) c (Fin.castLE (by omega) i))
    ∧ reconstructGroup 0 1 1 (by omega) !![(1 : ℝ)] ![(5 : ℝ)]
        (trajectoryMatrix 0 1 ![(3 : ℝ), 4]) Finset.univ = ![(3 : ℝ), 4] := by
  have hU : (!![(1 : ℝ)]) * (!![(1 : ℝ)]).transpose = 1 := by
    ext i j
    fin_cases i <;> fin_cases j <;>
      simp [Matrix.mul_apply, Matrix.one_apply]
  have hV : (!![(3 / 5 : ℝ), -(4 / 5); 4 / 5, 3 / 5])
      * (!![(3 / 5 : ℝ), -(4 / 5); 4 / 5, 3 / 5]).transpose = 1 := by
    ext i j
    fin_cases i <;> fin_cases j <;>
      simp [Matrix.mul_apply, Matrix.one_apply, Matrix.transpose_apply,
        Matrix.vecHead, Matrix.vecTail, Fin.sum_univ_two] <;> norm_num
  have hpos : ∀ i : Fin 1, 0 < (![(5 : ℝ)]) i := by
    intro i
    fin_cases i
    norm_num
  have hsvd : ∀ r c, trajectoryMatrix 0 1 ![(3 : ℝ), 4] r c =
      ∑ i : Fin 1, (![(5 : ℝ)]) i * (!![(1 : ℝ)]) r (Fin.castLE (by omega) i)
        * (!![(3 / 5 : ℝ), -(4 / 5); 4 / 5, 3 / 5]) c (Fin.castLE (by omega) i) := by
    intro r c
    fin_cases r <;> fin_cases c <;>
      simp [trajectoryMatrix, Fin.sum_univ_one] <;> norm_num
  exact ⟨hU, hV, hpos, hsvd,
    full_rank_reconstruction_roundtrip 0 1 1 (by omega) (by omega) (by omega)
      ![(3 : ℝ), 4] !![(1 : ℝ)] !![(3 / 5 : ℝ), -(4 / 5); 4 / 5, 3 / 5] ![(5 : ℝ)]
      hU hV hpos hsvd⟩

/-! ### State model of `BaseSSA` and the two constructors

Python dicts are modelled as association lists in insertion order, exceptions
as explicit error values.  An operation that can raise returns the raised
exception together with the post-call state, since Python mutates in place.
-/

/-- Exception kinds raised by the modelled code paths. `badCall` is the
library's own `BadCallError` (a `ValueError` subclass, `base.py` lines
24-26); the others are Python built-ins. -/
inductive PyErr where
  | badCall
  | typeErr
  | valueErr
  | indexErr
  deriving DecidableEq, Repr

/-- Value side of a user group mapping.  `dtypes.is_valid_group_dict` admits
an int or a list of ints; `str` values can only be produced by the merge loop
of `BaseSSA.reconstruct`, which assigns characters of an unpacked key. -/
inductive PyVal where
  | int (i : Int)
  | idxList (l : List Int)
  | str (s : String)
  deriving DecidableEq, Repr

/-- Value side of the resolved mapping returned by the `groups` property: the
`None` sentinel stored under `ssa_original`, the `range(n)` stored under
`ssa_reconstruction`, a user-supplied value, or the computed residual index
list. -/
inductive GVal where
  | noneV
  | range (n : ℕ)
  | user (v : PyVal)
  | ilist (l : List ℕ)
  deriving DecidableEq, Repr

/-- State of one engine instance.  `svdS` is the stored singular value vector
`svd[1]` (`none` while `svd = [None, None, None]`; the three slots are always
assigned together by the backend wrappers, so one option models the
`any(item is None for item in self.svd)` test).  `kTraj` models the `_k`
attribute, which only `BasicSSA.__init__` sets. -/
structure SSAState where
  ts : List ℝ
  window : Int
  kTraj : Option Int
  usergroups : Option (List (String × PyVal))
  svdS : Option (List ℝ)

/-- Lookup in a Python dict built as `dict(zip(names, values))`: with
duplicate names the later binding wins, so lookup returns the value of the
last pair carrying the requested key. -/
def pyLookup {α : Type} (k : String) : List (String × α) → Option α
  | [] => none
  | p :: rest =>
    match pyLookup k rest with
    | some v => some v
    | none => if p.1 = k then some p.2 else none

/-- Python dict item assignment `d[k] = v`: replace the binding if the key is
present, otherwise append a new binding. -/
def dictUpsert {α : Type} : List (String × α) → String → α → List (String × α)
  | [], k, v => [(k, v)]
  | p :: rest, k, v => if p.1 = k then (k, v) :: rest else p :: dictUpsert rest k v

/-- Python `name in d` membership test on a dict. -/
def keyMemB {α : Type} (k : String) (d : List (String × α)) : Bool :=
  d.any fun p => p.1 == k

/-- Modelled from the spec: `is_valid_group_dict` of the `dtypes` module,
which is not among the sources.  Per the error message in
`BaseSSA.reconstruct` and the spec's GroupDefinition model, keys must be
strings (guaranteed by typing here) and values ints or lists of ints. -/
def is_valid_group_dict (groups : List (String × PyVal)) : Bool :=
  groups.all fun p =>
    match p.2 with
    | PyVal.int _ => true
    | PyVal.idxList _ => true
    | PyVal.str _ => false

/-- Modelled from the spec: `nested2d_to_flatlist` of the `dtypes` module,
which is not among the sources.  The spec defines the residual as the
complement of "the union of all user group indices", so the user values
(single int or list of ints) are flattened into one index list. -/
def nested2d_to_flatlist : List PyVal → List Int
  | [] => []
  | PyVal.int i :: rest => i :: nested2d_to_flatlist rest
  | PyVal.idxList l :: rest => l ++ nested2d_to_flatlist rest
  | PyVal.str _ :: rest => nested2d_to_flatlist rest

/-- Embedding of `BaseSSA._n_components` (`base.py` lines 220-223):
`len(self.svd[1])`.  Before any decomposition `svd[1]` is `None`, and
Python's `len(None)` raises `TypeError`. -/
def nComponents (st : SSAState) : Except PyErr ℕ :=
  match st.svdS with
  | none => Except.error PyErr.typeErr
  | some s => Except.ok s.length

/-- Embedding of the `BaseSSA.groups` property (`base.py` lines 153-213).
It first reads `self._n_components` (raising `TypeError` while undecomposed),
then, when the user mapping is truthy, appends the user groups and the
freshly computed residual (indices of `range(n)` not in the flattened user
index set) after the first two default names; otherwise only the first two
default names appear.  The mapping is returned as the `zip` list; the
`dict(zip(...))` later-duplicate-wins semantics live in `pyLookup`. -/
def groupsProp (st : SSAState) : Except PyErr (List (String × GVal)) :=
  match st.svdS with
  | none => Except.error PyErr.typeErr
  | some svals =>
    let n := svals.length
    match st.usergroups with
    | some ug =>
      if ug.isEmpty then
        Except.ok [("ssa_original", GVal.noneV), ("ssa_reconstruction", GVal.range n)]
      else
        let flat := nested2d_to_flatlist (ug.map Prod.snd)
        let residualidx := (List.range n).filter fun (i : ℕ) => decide (¬ ((i : Int) ∈ flat))
        Except.ok ([("ssa_original", GVal.noneV), ("ssa_reconstruction", GVal.range n)]
          ++ ug.map (fun p => (p.1, GVal.user p.2))
          ++ [("ssa_residuals", GVal.ilist residualidx)])
    | none =>
      Except.ok [("ssa_original", GVal.noneV), ("ssa_reconstruction", GVal.range n)]

/-- Embedding of the merge loop of `BaseSSA.reconstruct` (`base.py` lines
329-332).  `for key, values in newgrp:` iterates over the KEYS of the
incoming dict (iterating a Python dict yields its keys), then unpacks each
key string into the two loop variables: a key of length two unpacks into its
two characters, and the assignment stores the second character under the
first; any other key length raises `ValueError` (wrong number of values to
unpack).  Mutation is in place, so the bindings made before a raise are
kept. -/
def mergeLoop :
    List (String × PyVal) → List String → List (String × PyVal) × Option PyErr
  | old, [] => (old, none)
  | old, key :: rest =>
    match key.toList with
    | [a, b] =>
      mergeLoop (dictUpsert old (String.mk [a]) (PyVal.str (String.mk [b]))) rest
    | _ => (old, some PyErr.valueErr)

/-- Embedding of `BaseSSA.reconstruct` (`base.py` lines 256-332): guard on an
absent decomposition (`BadCallError`), validate the incoming mapping (the
`isinstance(groups, dict)` test is discharged by typing), then either replace
the user mapping (`_usergroups is None or not append`), or raise on a name
conflict with `overwrite=False`, or run the merge loop. -/
def reconstructOp (st : SSAState) (groups : List (String × PyVal))
    (append ow : Bool) : Option PyErr × SSAState :=
  if st.svdS.isNone then
    (some PyErr.badCall, st)
  else if !(is_valid_group_dict groups) then
    (some PyErr.valueErr, st)
  else
    match st.usergroups, append with
    | none, _ => (none, { st with usergroups := some groups })
    | some _, false => (none, { st with usergroups := some groups })
    | some old, true =>
      let common := groups.filter fun p => keyMemB p.1 old
      if !common.isEmpty && !ow then
        (some PyErr.valueErr, st)
      else
        let r := mergeLoop old (groups.map Prod.fst)
        (r.2, { st with usergroups := some r.1 })

/-- Embedding of `BasicSSA.__init__` (`ssa.py` lines 127-139) on top of
`BaseSSA.__init__` (`base.py` lines 50-104).  The base checks concern the
input representation (the `usetype` string, one-dimensionality, realness) and
are discharged by the typed embedding; no code path examines `window`, which
is stored as given (defaulting to `N // 2`), and `_k = N - window + 1`. -/
def basicSSA_init (ts : List ℝ) (window : Option Int) : Except PyErr SSAState :=
  let w := window.getD ((ts.length : Int) / 2)
  Except.ok { ts := ts, window := w, kTraj := some ((ts.length : Int) - w + 1),
              usergroups := none, svdS := none }

/-- Embedding of `ToeplitzSSA.__init__` (`ssa.py` lines 218-229): same as the
basic constructor, except `_k` is never computed. -/
def toeplitzSSA_init (ts : List ℝ) (window : Option Int) : Except PyErr SSAState :=
  let w := window.getD ((ts.length : Int) / 2)
  Except.ok { ts := ts, window := w, kTraj := none,
              usergroups := none, svdS := none }

/-- Model of a Python float: a finite real, or one of the non-finite IEEE
values that the `ssa` factory screens out. -/
inductive PyFloat where
  | fin (x : ℝ)
  | nan
  | inf
  | ninf

/-- Python `np.isfinite` on one element. -/
def PyFloat.isFinite : PyFloat → Bool
  | PyFloat.fin _ => true
  | _ => false

/-- Value of a finite element (the constructors are reached only after the
finiteness check passes, so the default for non-finite values is never
relevant). -/
def PyFloat.val : PyFloat → ℝ
  | PyFloat.fin x => x
  | _ => 0

/-- Result of the `ssa` factory: an engine of one of the two kinds, or the
`None` that a fallen-through `ssa_object` still holds. -/
inductive SsaEngine where
  | basic (st : SSAState)
  | toeplitz (st : SSAState)

/-- Embedding of the `ssa` factory (`ssa.py` lines 19-41): the finiteness
check runs first and raises `ValueError`; `ssa_object` starts as `None`, is
replaced only when `kind` is one of the two known names, and is returned. -/
def ssaFactory (ts : List PyFloat) (kind : String) (window : Option Int) :
    Except PyErr (Option SsaEngine) :=
  if !(ts.all PyFloat.isFinite) then Except.error PyErr.valueErr
  else if kind = "basic" then
    (basicSSA_init (ts.map PyFloat.val) window).map fun st => some (SsaEngine.basic st)
  else if kind = "toeplitz" then
    (toeplitzSSA_init (ts.map PyFloat.val) window).map fun st => some (SsaEngine.toeplitz st)
  else Except.ok none

/-! ### Backend wrappers and canonicalization -/

/-- Raw `(U, S, V)` triple produced by a decomposition backend: `U` holds `r`
column vectors of length `m`, `S` the `r` values, `V` the `r` row vectors of
length `n`. -/
structure Svd3 (m n r : ℕ) where
  u : Matrix (Fin m) (Fin r) ℝ
  s : Fin r → ℝ
  v : Matrix (Fin r) (Fin n) ℝ

/-- Behaviour of `numpy.argmax` on a vector: the index of the first
occurrence of the largest entry (the fold keeps the earlier index on ties). -/
noncomputable def pyArgmax {m : ℕ} (f : Fin (m + 1) → ℝ) : Fin (m + 1) :=
  (List.finRange (m + 1)).foldl (fun best i => if f best < f i then i else best) 0

/-- Behaviour of `numpy.sign`: `1`, `-1`, or `0` on a zero argument. -/
noncomputable def npSign (x : ℝ) : ℝ :=
  if 0 < x then 1 else if x < 0 then -1 else 0

/-- Model of `sklearn.utils.extmath.svd_flip` (an external collaborator of
`base.py`) with its default `u_based_decision=True`: for each component `j`
the sign of the largest-magnitude entry of column `j` of `u` multiplies both
that column and row `j` of `v`. -/
noncomputable def svd_flip {m n r : ℕ} (u : Matrix (Fin (m + 1)) (Fin r) ℝ)
    (v : Matrix (Fin r) (Fin n) ℝ) :
    Matrix (Fin (m + 1)) (Fin r) ℝ × Matrix (Fin r) (Fin n) ℝ :=
  (Matrix.of fun i j => u i j * npSign (u (pyArgmax fun i2 => |u i2 j|) j),
   Matrix.of fun j c => v j c * npSign (u (pyArgmax fun i2 => |u i2 j|) j))

/-- Embedding of the post-processing in `BaseSSA._nplapack_wrapper`
(`base.py` lines 360-394): the raw triple returned by `numpy.linalg.svd` is
stored unchanged (the conversion to `np.matrix` changes no value; there is no
reordering and no sign adjustment). -/
def nplapack_wrapper {m n r : ℕ} (raw : Svd3 m n r) : Svd3 m n r := raw

/-- Embedding of the post-processing in `BaseSSA._splapack_wrapper`
(`base.py` lines 396-441): the raw triple returned by `scipy.linalg.svd` is
likewise stored unchanged. -/
def splapack_wrapper {m n r : ℕ} (raw : Svd3 m n r) : Svd3 m n r := raw

/-- Embedding of the post-processing in `BaseSSA._sparpack_wrapper`
(`base.py` lines 443-479): `scipy.sparse.linalg.svds` returns its `k`
components in ascending value order, so the wrapper reverses the columns of
`u`, the rows of `v` and the value vector, and resolves the sign ambiguity
with `svd_flip`. -/
noncomputable def sparpack_wrapper {m n r : ℕ} (raw : Svd3 (m + 1) n r) :
    Svd3 (m + 1) n r :=
  let ur := Matrix.of fun i j => raw.u i (Fin.rev j)
  let vr := Matrix.of fun j c => raw.v (Fin.rev j) c
  { u := (svd_flip ur vr).1, s := fun j => raw.s (Fin.rev j), v := (svd_flip ur vr).2 }

/-! ### Embedding and lag-covariance matrix of `ToeplitzSSA` -/

/-- Embedding of `ToeplitzSSA._embedseries` (`ssa.py` lines 231-250): an
`N × window` matrix whose column `i` holds `ts[i:]` in its first `N - i`
rows, with the `np.zeros` initial value below. -/
def toeplitzEmbed (ts : List ℝ) (w : ℕ) : Matrix (Fin ts.length) (Fin w) ℝ :=
  Matrix.of fun r c =>
    if (r : ℕ) + (c : ℕ) < ts.length then ts.getD ((r : ℕ) + (c : ℕ)) 0 else 0

/-- Embedding of `ToeplitzSSA._covariance_matrix` (`ssa.py` lines 255-267).
The source receives the trajectory matrix and reads back its first column,
which is exactly the stored sequence (`x[:n-0, 0] = ts[0:]`).  The
`window × window` matrix starts as `sum(x*x)/n` everywhere (so on the
diagonal), and each off-diagonal entry `(i, j)` is overwritten with
`sum(x[:-dt] * x[dt:]) / (n - dt)` for the lag `dt = |i - j|`. -/
noncomputable def toeplitzCovariance (ts : List ℝ) (w : ℕ) :
    Matrix (Fin w) (Fin w) ℝ :=
  Matrix.of fun i j =>
    if i = j then
      (∑ t ∈ Finset.range ts.length, ts.getD t 0 * ts.getD t 0) / (ts.length : ℝ)
    else
      (∑ t ∈ Finset.range (ts.length - ((i : Int) - (j : Int)).natAbs),
          ts.getD t 0 * ts.getD (t + ((i : Int) - (j : Int)).natAbs) 0)
        / ((ts.length : ℝ) - (((i : Int) - (j : Int)).natAbs : ℝ))

/-- The matrix each SVD wrapper factorizes is `self._embedseries()`
(`base.py` lines 384, 429, 461 and 534); for a `ToeplitzSSA` instance that
is the zero-padded `N × window` sliding-window matrix.  `_svdmatrix`, the
method that would produce the lag-covariance matrix, has no caller among the
wrappers. -/
def toeplitzSvdInput (ts : List ℝ) (w : ℕ) : Matrix (Fin ts.length) (Fin w) ℝ :=
  toeplitzEmbed ts w

/-! ### Canonicalization of the backend wrappers -/

/-- After `svd_flip`, every left-vector column has a non-negative
largest-magnitude entry: flipping by the sign of that entry preserves the
magnitude profile of the column, so the same position stays maximal and its
entry becomes non-negative (a zero sign forces the whole column to zero). -/
theorem svd_flip_sign_canonical {m n r : ℕ} (u : Matrix (Fin (m + 1)) (Fin r) ℝ)
    (v : Matrix (Fin r) (Fin n) ℝ) (j : Fin r) :
    0 ≤ (svd_flip u v).1 (pyArgmax fun i => |(svd_flip u v).1 i j|) j := by
  have hcol : ∀ i, (svd_flip u v).1 i j
      = u i j * npSign (u (pyArgmax fun i2 => |u i2 j|) j) := fun i => rfl
  rcases lt_trichotomy (u (pyArgmax fun i2 => |u i2 j|) j) 0 with hneg | hzero | hpos
  · have hsgv : npSign (u (pyArgmax fun i2 => |u i2 j|) j) = -1 := by
      simp only [npSign]
      rw [if_neg (by linarith), if_pos hneg]
    have habs : (fun i => |(svd_flip u v).1 i j|) = fun i => |u i j| := by
      funext i
      rw [hcol i, hsgv, mul_neg_one, abs_neg]
    rw [habs, hcol, hsgv, mul_neg_one]
    linarith
  · have hsgv : npSign (u (pyArgmax fun i2 => |u i2 j|) j) = 0 := by
      simp only [npSign, hzero]
      norm_num
    rw [hcol, hsgv, mul_zero]
  · have hsgv : npSign (u (pyArgmax fun i2 => |u i2 j|) j) = 1 := by
      simp only [npSign]
      rw [if_pos hpos]
    have habs : (fun i => |(svd_flip u v).1 i j|) = fun i => |u i j| := by
      funext i
      rw [hcol i, hsgv, mul_one]
    rw [habs, hcol, hsgv, mul_one]
    linarith

/-- C2 counterexample: the raw triple `u = [[-1]], s = [1], v = [[-1]]` is a
genuine singular value decomposition of the `1 × 1` matrix `[[1]]`
(orthogonal factors, non-negative value, `u · diag(s) · v = [[1]]`) and a
decomposition backend may legitimately return it, since the factor signs are
ambiguous; `_nplapack_wrapper` stores it unchanged, and the
largest-magnitude entry of the stored left-vector column is `-1 < 0`, so the
stored triple is not sign-canonical. -/
theorem backend_canonicalization_cex :
    ((!![(-1 : ℝ)]) * (!![(-1 : ℝ)]).transpose = 1)
    ∧ ((!![(-1 : ℝ)]).transpose * !![(-1 : ℝ)] = 1)
    ∧ (0 ≤ (![(1 : ℝ)]) 0)
    ∧ (∀ r c : Fin 1, (!![(1 : ℝ)]) r c
        = ∑ i : Fin 1, (![(1 : ℝ)]) i * (!![(-1 : ℝ)]) r i * (!![(-1 : ℝ)]) i c)
    ∧ nplapack_wrapper ⟨!![(-1 : ℝ)], ![(1 : ℝ)], !![(-1 : ℝ)]⟩
        = ⟨!![(-1 : ℝ)], ![(1 : ℝ)], !![(-1 : ℝ)]⟩
    ∧ ¬ (0 ≤ (nplapack_wrapper ⟨!![(-1 : ℝ)], ![(1 : ℝ)], !![(-1 : ℝ)]⟩).u
          (pyArgmax fun i =>
            |(nplapack_wrapper ⟨!![(-1 : ℝ)], ![(1 : ℝ)], !![(-1 : ℝ)]⟩).u i 0|) 0) := by
  refine ⟨?_, ?_, by norm_num, ?_, rfl, ?_⟩
  · ext i j
    fin_cases i <;> fin_cases j <;>
      simp [Matrix.mul_apply, Matrix.one_apply, Matrix.transpose_apply]
  · ext i j
    fin_cases i <;> fin_cases j <;>
      simp [Matrix.mul_apply, Matrix.one_apply, Matrix.transpose_apply]
  · intro r c
    fin_cases r <;> fin_cases c <;>
      simp [Fin.sum_univ_one]
  · have ha : (pyArgmax fun i : Fin 1 =>
        |(nplapack_wrapper ⟨!![(-1 : ℝ)], ![(1 : ℝ)], !![(-1 : ℝ)]⟩).u i 0|) = 0 :=
      Fin.eq_zero _
    rw [ha]
    norm_num [nplapack_wrapper]

/-- C2 amended: only the sparpack wrapper canonicalizes its backend's raw
output post-hoc — given the ascending value order ARPACK produces, the
stored values are descending, and every stored left-vector column has a
non-negative largest-magnitude entry — while the nplapack and splapack
wrappers store the raw backend output unchanged (no reordering, no sign
fix); the skrandom wrapper delegates the sign fix to its backend's
`flip_sign=True` option rather than applying one itself. -/
theorem sparpack_canonicalization {m n r : ℕ} (raw : Svd3 (m + 1) n r)
    (hasc : ∀ i j : Fin r, i ≤ j → raw.s i ≤ raw.s j) :
    (∀ i j : Fin r, i ≤ j →
        (sparpack_wrapper raw).s j ≤ (sparpack_wrapper raw).s i)
    ∧ (∀ j : Fin r,
        0 ≤ (sparpack_wrapper raw).u
          (pyArgmax fun i => |(sparpack_wrapper raw).u i j|) j)
    ∧ (∀ t : Svd3 (m + 1) n r, nplapack_wrapper t = t ∧ splapack_wrapper t = t) := by
  refine ⟨?_, ?_, fun t => ⟨rfl, rfl⟩⟩
  · intro i j hij
    exact hasc (Fin.rev j) (Fin.rev i) (Fin.rev_le_rev.mpr hij)
  · intro j
    exact svd_flip_sign_canonical
      (Matrix.of fun i j2 => raw.u i (Fin.rev j2))
      (Matrix.of fun j2 c => raw.v (Fin.rev j2) c) j

/-- Witness for the amended C2 at the raw triple `u = [[-2]], s = [3],
v = [[1]]` (trivially ascending): the wrapper output is descending,
sign-canonical, and the lapack wrappers are the identity. -/
theorem sparpack_canonicalization_witness :
    (∀ i j : Fin 1, i ≤ j →
      (⟨!![(-2 : ℝ)], ![(3 : ℝ)], !![(1 : ℝ)]⟩ : Svd3 1 1 1).s i
        ≤ (⟨!![(-2 : ℝ)], ![(3 : ℝ)], !![(1 : ℝ)]⟩ : Svd3 1 1 1).s j)
    ∧ ((∀ i j : Fin 1, i ≤ j →
        (sparpack_wrapper (⟨!![(-2 : ℝ)], ![(3 : ℝ)], !![(1 : ℝ)]⟩ : Svd3 1 1 1)).s j
          ≤ (sparpack_wrapper (⟨!![(-2 : ℝ)], ![(3 : ℝ)], !![(1 : ℝ)]⟩ : Svd3 1 1 1)).s i)
      ∧ (∀ j : Fin 1,
          0 ≤ (sparpack_wrapper (⟨!![(-2 : ℝ)], ![(3 : ℝ)], !![(1 : ℝ)]⟩ : Svd3 1 1 1)).u
            (pyArgmax fun i =>
              |(sparpack_wrapper (⟨!![(-2 : ℝ)], ![(3 : ℝ)], !![(1 : ℝ)]⟩ : Svd3 1 1 1)).u i j|) j)
      ∧ (∀ t : Svd3 1 1 1, nplapack_wrapper t = t ∧ splapack_wrapper t = t)) := by
  have hasc : ∀ i j : Fin 1, i ≤ j →
      (⟨!![(-2 : ℝ)], ![(3 : ℝ)], !![(1 : ℝ)]⟩ : Svd3 1 1 1).s i
        ≤ (⟨!![(-2 : ℝ)], ![(3 : ℝ)], !![(1 : ℝ)]⟩ : Svd3 1 1 1).s j := by
    intro i j _
    fin_cases i <;> fin_cases j <;> exact le_refl _
  exact ⟨hasc, sparpack_canonicalization ⟨!![(-2 : ℝ)], ![(3 : ℝ)], !![(1 : ℝ)]⟩ hasc⟩

/-! ### Ordering of decompose against the other operations -/

/-- C3 counterexample: on a freshly constructed, undecomposed engine,
`_n_components` does not raise `BadCallError`: evaluating `len(self.svd[1])`
with `svd[1] = None` raises `TypeError` instead. -/
theorem ordering_law_cex :
    nComponents ⟨[(1 : ℝ), 2, 3, 4], 2, some 3, none, none⟩
      ≠ Except.error PyErr.badCall := by
  simp [nComponents]

/-- C3 amended: before any successful decompose (stored svd triple still
absent), `reconstruct` raises `BadCallError` and leaves the state unchanged,
while `_n_components` and the `groups` property instead raise `TypeError`
(Python's `len(None)`), not `BadCallError`. -/
theorem ordering_law_amended (st : SSAState) (h : st.svdS = none)
    (groups : List (String × PyVal)) (append ow : Bool) :
    reconstructOp st groups append ow = (some PyErr.badCall, st)
    ∧ nComponents st = Except.error PyErr.typeErr
    ∧ groupsProp st = Except.error PyErr.typeErr := by
  refine ⟨?_, ?_, ?_⟩
  · have hn : st.svdS.isNone = true := by rw [h]; rfl
    simp [reconstructOp, hn]
  · rw [nComponents, h]
  · rw [groupsProp, h]

/-- Witness for the amended C3 on a concrete undecomposed engine state. -/
theorem ordering_law_amended_witness :
    ((⟨[(1 : ℝ)], 1, some 1, none, none⟩ : SSAState).svdS = none)
    ∧ (reconstructOp ⟨[(1 : ℝ)], 1, some 1, none, none⟩ [("a", PyVal.int 0)] false false
        = (some PyErr.badCall, ⟨[(1 : ℝ)], 1, some 1, none, none⟩)
      ∧ nComponents ⟨[(1 : ℝ)], 1, some 1, none, none⟩ = Except.error PyErr.typeErr
      ∧ groupsProp ⟨[(1 : ℝ)], 1, some 1, none, none⟩ = Except.error PyErr.typeErr) :=
  ⟨rfl, ordering_law_amended ⟨[(1 : ℝ)], 1, some 1, none, none⟩ rfl
    [("a", PyVal.int 0)] false false⟩

/-! ### The append merge of `reconstruct` -/

/-- C4 (code bug): with a decomposition in place and the existing user
mapping `{'trend': [0]}`, appending the valid, disjoint mapping
`{'season': [1, 2]}` does not merge it: the loop `for key, values in
newgrp:` iterates over the dict's keys and unpacks the six-character key
`'season'` into two variables, raising `ValueError`; and for a
two-character group name `'ab'` the call "succeeds" but silently stores the
character binding `'a' → 'b'` instead of adding the group `'ab'`. -/
theorem append_merge_bug :
    reconstructOp
        ⟨[(1 : ℝ)], 1, some 1, some [("trend", PyVal.idxList [0])], some [(5 : ℝ), 3]⟩
        [("season", PyVal.idxList [1, 2])] true false
      = (some PyErr.valueErr,
         ⟨[(1 : ℝ)], 1, some 1, some [("trend", PyVal.idxList [0])], some [(5 : ℝ), 3]⟩)
    ∧ reconstructOp
        ⟨[(1 : ℝ)], 1, some 1, some [("trend", PyVal.idxList [0])], some [(5 : ℝ), 3]⟩
        [("ab", PyVal.idxList [1, 2])] true false
      = (none,
         ⟨[(1 : ℝ)], 1, some 1,
          some [("trend", PyVal.idxList [0]), ("a", PyVal.str "b")], some [(5 : ℝ), 3]⟩) :=
  ⟨rfl, rfl⟩

/-- C5: with a decomposition and an existing user mapping, calling
`reconstruct` with `append=True, overwrite=False` and some incoming name
already present raises the conflict `ValueError` before any mutation: the
returned state is exactly the state before the call. -/
theorem append_conflict_all_or_nothing (st : SSAState) (old newg : List (String × PyVal))
    (hsvd : st.svdS.isNone = false)
    (husr : st.usergroups = some old)
    (hvalid : is_valid_group_dict newg = true)
    (hconf : ∃ p ∈ newg, keyMemB p.1 old = true) :
    reconstructOp st newg true false = (some PyErr.valueErr, st) := by
  obtain ⟨p, hp, hk⟩ := hconf
  have hmem : p ∈ newg.filter fun q => keyMemB q.1 old :=
    List.mem_filter.mpr ⟨hp, hk⟩
  have hne : (newg.filter fun q => keyMemB q.1 old).isEmpty = false := by
    cases hE : (newg.filter fun q => keyMemB q.1 old) with
    | nil => rw [hE] at hmem; cases hmem
    | cons a tl => rfl
  simp only [reconstructOp, hsvd, husr, hvalid]
  simp [hne]

/-- Witness for C5: existing mapping `{'trend': [0]}`, incoming mapping
`{'trend': [1]}`, `append=True, overwrite=False`: conflict raised, prior
state returned untouched. -/
theorem append_conflict_all_or_nothing_witness :
    ((⟨[(1 : ℝ)], 1, some 1, some [("trend", PyVal.idxList [0])], some [(5 : ℝ)]⟩ :
        SSAState).svdS.isNone = false)
    ∧ ((⟨[(1 : ℝ)], 1, some 1, some [("trend", PyVal.idxList [0])], some [(5 : ℝ)]⟩ :
        SSAState).usergroups = some [("trend", PyVal.idxList [0])])
    ∧ is_valid_group_dict [("trend", PyVal.idxList [1])] = true
    ∧ (∃ p ∈ [("trend", PyVal.idxList [1])], keyMemB p.1 [("trend", PyVal.idxList [0])] = true)
    ∧ reconstructOp
        ⟨[(1 : ℝ)], 1, some 1, some [("trend", PyVal.idxList [0])], some [(5 : ℝ)]⟩
        [("trend", PyVal.idxList [1])] true false
      = (some PyErr.valueErr,
         ⟨[(1 : ℝ)], 1, some 1, some [("trend", PyVal.idxList [0])], some [(5 : ℝ)]⟩) := by
  have hconf : ∃ p ∈ [("trend", PyVal.idxList [1])],
      keyMemB p.1 [("trend", PyVal.idxList [0])] = true :=
    ⟨("trend", PyVal.idxList [1]), by simp, by rfl⟩
  exact ⟨rfl, rfl, rfl, hconf,
    append_conflict_all_or_nothing _ [("trend", PyVal.idxList [0])]
      [("trend", PyVal.idxList [1])] rfl rfl rfl hconf⟩

/-! ### Resolved group mapping -/

/-- Lookup distributes over concatenation: the later sublist wins. -/
theorem pyLookup_append {α : Type} (k : String) (l1 l2 : List (String × α)) :
    pyLookup k (l1 ++ l2)
      = match pyLookup k l2 with
        | some v => some v
        | none => pyLookup k l1 := by
  induction l1 with
  | nil =>
    cases h2 : pyLookup k l2 <;> simp [pyLookup, h2]
  | cons p rest ih =>
    cases h2 : pyLookup k l2 <;> cases h3 : pyLookup k rest <;>
      simp [pyLookup, List.cons_append, ih, h2, h3]

/-- Lookup misses a list none of whose keys is the requested one. -/
theorem pyLookup_eq_none {α : Type} (k : String) (l : List (String × α))
    (h : ∀ p ∈ l, p.1 ≠ k) : pyLookup k l = none := by
  induction l with
  | nil => rfl
  | cons p rest ih =>
    have hrest := ih fun q hq => h q (List.mem_cons_of_mem _ hq)
    simp only [pyLookup, hrest]
    simp [h p (List.mem_cons_self _ _)]

/-- Lookup hits a list some of whose keys is the requested one. -/
theorem pyLookup_isSome {α : Type} (k : String) (l : List (String × α))
    (h : ∃ p ∈ l, p.1 = k) : ∃ v, pyLookup k l = some v := by
  induction l with
  | nil =>
    obtain ⟨p, hp, _⟩ := h
    cases hp
  | cons p rest ih =>
    cases hrest : pyLookup k rest with
    | some v => exact ⟨v, by simp only [pyLookup, hrest]⟩
    | none =>
      obtain ⟨q, hq, hk⟩ := h
      rcases List.mem_cons.mp hq with rfl | hmem
      · exact ⟨q.2, by simp only [pyLookup, hrest]; simp [hk]⟩
      · obtain ⟨v, hv⟩ := ih ⟨q, hmem, hk⟩
        rw [hv] at hrest
        cases hrest

/-- Lookup on a singleton dict with the requested key. -/
theorem pyLookup_singleton_eq {α : Type} (k : String) (v : α) :
    pyLookup k [(k, v)] = some v := by
  simp [pyLookup]

/-- Lookup on a singleton dict with a different key. -/
theorem pyLookup_singleton_ne {α : Type} (k k2 : String) (v : α) (hne : k2 ≠ k) :
    pyLookup k [(k2, v)] = none := by
  simp [pyLookup, hne]

/-- A hit in the left part survives concatenation. -/
theorem pyLookup_isSome_append_left {α : Type} (k : String) (l1 l2 : List (String × α))
    (h : ∃ v, pyLookup k l1 = some v) : ∃ v, pyLookup k (l1 ++ l2) = some v := by
  cases h2 : pyLookup k l2 with
  | some v => exact ⟨v, by rw [pyLookup_append, h2]⟩
  | none =>
    obtain ⟨v, hv⟩ := h
    exact ⟨v, by rw [pyLookup_append, h2, hv]⟩

/-- A hit in the right part survives concatenation. -/
theorem pyLookup_isSome_append_right {α : Type} (k : String) (l1 l2 : List (String × α))
    (h : ∃ v, pyLookup k l2 = some v) : ∃ v, pyLookup k (l1 ++ l2) = some v := by
  obtain ⟨v, hv⟩ := h
  exact ⟨v, by rw [pyLookup_append, hv]⟩

/-- C6 counterexample: after a successful decomposition with two components
and no user groups defined, the resolved mapping has no `ssa_residuals`
entry at all (the `groups` property only emits the first two default names
on the falsy branch). -/
theorem resolved_groups_cex :
    (groupsProp ⟨[(1 : ℝ), 2, 3], 1, some 3, none, some [(5 : ℝ), 3]⟩).map
        (pyLookup "ssa_residuals")
      = Except.ok none := by
  rfl

/-- C6 amended: after every successful decomposition, with user group names
distinct from the first two reserved names, the resolved mapping always
contains the `ssa_original` sentinel and the full-reconstruction entry with
indices `0..R-1`; when the user mapping is non-empty it additionally
contains every user group name and the residual entry; but when no user
groups are defined (user mapping absent or empty) the `ssa_residuals` entry
is absent. -/
theorem resolved_groups_amended (st : SSAState) (svals : List ℝ)
    (h : st.svdS = some svals) :
    (∀ ug, st.usergroups = some ug → ug ≠ [] →
      (∀ p ∈ ug, p.1 ≠ "ssa_original" ∧ p.1 ≠ "ssa_reconstruction") →
      ∃ gl, groupsProp st = Except.ok gl
        ∧ pyLookup "ssa_original" gl = some GVal.noneV
        ∧ pyLookup "ssa_reconstruction" gl = some (GVal.range svals.length)
        ∧ (∀ p ∈ ug, ∃ gv, pyLookup p.1 gl = some gv)
        ∧ (∃ rl, pyLookup "ssa_residuals" gl = some (GVal.ilist rl)))
    ∧ ((st.usergroups = none ∨ st.usergroups = some []) →
      ∃ gl, groupsProp st = Except.ok gl
        ∧ pyLookup "ssa_original" gl = some GVal.noneV
        ∧ pyLookup "ssa_reconstruction" gl = some (GVal.range svals.length)
        ∧ pyLookup "ssa_residuals" gl = none) := by
  constructor
  · intro ug hug hne hres
    have hempty : ug.isEmpty = false := by
      cases ug with
      | nil => exact absurd rfl hne
      | cons a tl => rfl
    simp only [groupsProp, h, hug, hempty, Bool.false_eq_true, if_false]
    refine ⟨_, rfl, ?_, ?_, ?_, ?_⟩
    · have hB : pyLookup "ssa_original" (ug.map fun p => (p.1, GVal.user p.2)) = none :=
        pyLookup_eq_none _ _ fun q hq => by
          obtain ⟨p, hp, rfl⟩ := List.mem_map.mp hq
          exact (hres p hp).1
      rw [pyLookup_append,
        pyLookup_singleton_ne "ssa_original" "ssa_residuals" _ (by decide),
        pyLookup_append, hB]
      rfl
    · have hB : pyLookup "ssa_reconstruction" (ug.map fun p => (p.1, GVal.user p.2)) = none :=
        pyLookup_eq_none _ _ fun q hq => by
          obtain ⟨p, hp, rfl⟩ := List.mem_map.mp hq
          exact (hres p hp).2
      rw [pyLookup_append,
        pyLookup_singleton_ne "ssa_reconstruction" "ssa_residuals" _ (by decide),
        pyLookup_append, hB]
      rfl
    · intro p hp
      apply pyLookup_isSome_append_left
      apply pyLookup_isSome_append_right
      exact pyLookup_isSome p.1 (ug.map fun q => (q.1, GVal.user q.2))
        ⟨(p.1, GVal.user p.2), List.mem_map.mpr ⟨p, hp, rfl⟩, rfl⟩
    · exact ⟨_, by rw [pyLookup_append, pyLookup_singleton_eq]⟩
  · intro hcase
    rcases hcase with hnone | hnil
    · rw [groupsProp, h, hnone]
      exact ⟨_, rfl, rfl, rfl, rfl⟩
    · rw [groupsProp, h, hnil]
      exact ⟨_, rfl, rfl, rfl, rfl⟩

/-- Witness for the amended C6: a decomposed state with the single user
group `{'trend': 0}` and singular values of length 2. -/
theorem resolved_groups_amended_witness :
    ((⟨[(1 : ℝ), 2, 3], 1, some 3, some [("trend", PyVal.int 0)], some [(5 : ℝ), 3]⟩ :
        SSAState).svdS = some [(5 : ℝ), 3])
    ∧ ((∀ ug, (⟨[(1 : ℝ), 2, 3], 1, some 3, some [("trend", PyVal.int 0)],
          some [(5 : ℝ), 3]⟩ : SSAState).usergroups = some ug → ug ≠ [] →
        (∀ p ∈ ug, p.1 ≠ "ssa_original" ∧ p.1 ≠ "ssa_reconstruction") →
        ∃ gl, groupsProp ⟨[(1 : ℝ), 2, 3], 1, some 3, some [("trend", PyVal.int 0)],
            some [(5 : ℝ), 3]⟩ = Except.ok gl
          ∧ pyLookup "ssa_original" gl = some GVal.noneV
          ∧ pyLookup "ssa_reconstruction" gl = some (GVal.range ([(5 : ℝ), 3].length))
          ∧ (∀ p ∈ ug, ∃ gv, pyLookup p.1 gl = some gv)
          ∧ (∃ rl, pyLookup "ssa_residuals" gl = some (GVal.ilist rl)))
      ∧ (((⟨[(1 : ℝ), 2, 3], 1, some 3, some [("trend", PyVal.int 0)],
            some [(5 : ℝ), 3]⟩ : SSAState).usergroups = none
          ∨ (⟨[(1 : ℝ), 2, 3], 1, some 3, some [("trend", PyVal.int 0)],
            some [(5 : ℝ), 3]⟩ : SSAState).usergroups = some []) →
        ∃ gl, groupsProp ⟨[(1 : ℝ), 2, 3], 1, some 3, some [("trend", PyVal.int 0)],
            some [(5 : ℝ), 3]⟩ = Except.ok gl
          ∧ pyLookup "ssa_original" gl = some GVal.noneV
          ∧ pyLookup "ssa_reconstruction" gl = some (GVal.range ([(5 : ℝ), 3].length))
          ∧ pyLookup "ssa_residuals" gl = none)) :=
  ⟨rfl, resolved_groups_amended
    ⟨[(1 : ℝ), 2, 3], 1, some 3, some [("trend", PyVal.int 0)], some [(5 : ℝ), 3]⟩
    [(5 : ℝ), 3] rfl⟩

/-- Membership of an index in one user group value: the index denoted by an
int value, the indices of a list value; a stray string value denotes no
indices (matching the flattening model). -/
def pyValMem (z : Int) : PyVal → Prop
  | PyVal.int j => z = j
  | PyVal.idxList l => z ∈ l
  | PyVal.str _ => False

/-- An index is in the flattened user index list exactly when some user
value contains it. -/
theorem mem_nested2d_to_flatlist (z : Int) (vals : List PyVal) :
    z ∈ nested2d_to_flatlist vals ↔ ∃ v ∈ vals, pyValMem z v := by
  induction vals with
  | nil => simp [nested2d_to_flatlist]
  | cons v rest ih =>
    cases v with
    | int j => simp [nested2d_to_flatlist, ih, pyValMem]
    | idxList l => simp [nested2d_to_flatlist, ih, pyValMem]
    | str s2 => simp [nested2d_to_flatlist, ih, pyValMem]

/-- C7: whenever a decomposition with `R` components exists and the user
mapping is non-empty, the `ssa_residuals` entry of the resolved mapping is
exactly the list of indices of `{0, ..., R-1}` that occur in no user group
(the complement of the union of the user index sets); the `groups` property
recomputes this list on every access, so it holds on every access after
every group-definition call. -/
theorem residual_law (st : SSAState) (svals : List ℝ)
    (ug : List (String × PyVal))
    (h : st.svdS = some svals) (hug : st.usergroups = some ug) (hne : ug ≠ []) :
    ∃ gl rl, groupsProp st = Except.ok gl
      ∧ pyLookup "ssa_residuals" gl = some (GVal.ilist rl)
      ∧ ∀ i : ℕ, i ∈ rl ↔ i < svals.length ∧ ∀ p ∈ ug, ¬ pyValMem (i : Int) p.2 := by
  have hempty : ug.isEmpty = false := by
    cases ug with
    | nil => exact absurd rfl hne
    | cons a tl => rfl
  simp only [groupsProp, h, hug, hempty, Bool.false_eq_true, if_false]
  refine ⟨_, _, rfl, by rw [pyLookup_append, pyLookup_singleton_eq], ?_⟩
  intro i
  rw [List.mem_filter, List.mem_range]
  constructor
  · rintro ⟨hlt, hdec⟩
    refine ⟨hlt, ?_⟩
    intro p hp hmem
    have hflat : (i : Int) ∈ nested2d_to_flatlist (ug.map Prod.snd) :=
      (mem_nested2d_to_flatlist _ _).mpr ⟨p.2, List.mem_map.mpr ⟨p, hp, rfl⟩, hmem⟩
    rw [decide_eq_true_iff] at hdec
    exact hdec hflat
  · rintro ⟨hlt, hall⟩
    refine ⟨hlt, ?_⟩
    rw [decide_eq_true_iff]
    intro hflat
    obtain ⟨v, hv, hmem⟩ := (mem_nested2d_to_flatlist _ _).mp hflat
    obtain ⟨p, hp, rfl⟩ := List.mem_map.mp hv
    exact hall p hp hmem

/-- Witness for C7: three components and the user groups
`{'trend': 0, 'season': [2]}`; the residual is `[1]`. -/
theorem residual_law_witness :
    ((⟨[(1 : ℝ), 2, 3, 4], 2, some 3,
        some [("trend", PyVal.int 0), ("season", PyVal.idxList [2])],
        some [(9 : ℝ), 5, 3]⟩ : SSAState).svdS = some [(9 : ℝ), 5, 3])
    ∧ ((⟨[(1 : ℝ), 2, 3, 4], 2, some 3,
        some [("trend", PyVal.int 0), ("season", PyVal.idxList [2])],
        some [(9 : ℝ), 5, 3]⟩ : SSAState).usergroups
        = some [("trend", PyVal.int 0), ("season", PyVal.idxList [2])])
    ∧ ([("trend", PyVal.int 0), ("season", PyVal.idxList [2])] ≠
        ([] : List (String × PyVal)))
    ∧ (∃ gl rl, groupsProp ⟨[(1 : ℝ), 2, 3, 4], 2, some 3,
          some [("trend", PyVal.int 0), ("season", PyVal.idxList [2])],
          some [(9 : ℝ), 5, 3]⟩ = Except.ok gl
        ∧ pyLookup "ssa_residuals" gl = some (GVal.ilist rl)
        ∧ ∀ i : ℕ, i ∈ rl ↔ i < ([(9 : ℝ), 5, 3].length)
            ∧ ∀ p ∈ [("trend", PyVal.int 0), ("season", PyVal.idxList [2])],
                ¬ pyValMem (i : Int) p.2) := by
  refine ⟨rfl, rfl, by simp, ?_⟩
  exact residual_law
    ⟨[(1 : ℝ), 2, 3, 4], 2, some 3,
      some [("trend", PyVal.int 0), ("season", PyVal.idxList [2])],
      some [(9 : ℝ), 5, 3]⟩
    [(9 : ℝ), 5, 3] [("trend", PyVal.int 0), ("season", PyVal.idxList [2])]
    rfl rfl (by simp)

/-! ### Window handling at construction -/

/-- C8 counterexample: constructing `BasicSSA` over a length-5 sequence with
the out-of-range windows `0` and `99` succeeds — no validation of the window
exists in either constructor, so no `ConfigurationError`-like failure occurs;
the window is stored as given and `_k = N - window + 1` is computed, even
when negative. -/
theorem window_validation_cex :
    basicSSA_init [(1 : ℝ), 2, 3, 4, 5] (some 0)
      = Except.ok ⟨[(1 : ℝ), 2, 3, 4, 5], 0, some 6, none, none⟩
    ∧ basicSSA_init [(1 : ℝ), 2, 3, 4, 5] (some 99)
      = Except.ok ⟨[(1 : ℝ), 2, 3, 4, 5], 99, some (-93), none, none⟩ := by
  constructor
  · simp only [basicSSA_init, Option.getD]
    norm_num
  · simp only [basicSSA_init, Option.getD]
    norm_num

/-- C8 amended: neither constructor validates the window: for every sequence
and every explicitly supplied integer window — inside or outside the range
`[1, N-1]` — construction of both engines succeeds, the window is stored as
given, and `BasicSSA` computes `_k = N - window + 1`. -/
theorem window_validation_amended (ts : List ℝ) (w : Int) :
    basicSSA_init ts (some w)
      = Except.ok ⟨ts, w, some ((ts.length : Int) - w + 1), none, none⟩
    ∧ toeplitzSSA_init ts (some w)
      = Except.ok ⟨ts, w, none, none, none⟩ :=
  ⟨rfl, rfl⟩

/-! ### The matrix that `ToeplitzSSA` hands to factorization -/

/-- C9 (code bug): the matrix handed to every factorization wrapper is
`self._embedseries()` — for `ToeplitzSSA` the zero-padded `N × window`
sliding-window matrix — and not the `window × window` lag-covariance matrix
built by `_covariance_matrix`, whose only caller `_svdmatrix` no wrapper
ever invokes.  At `ts = (1, 2, 3)` with `window = 2` the factorized matrix is
the `3 × 2` matrix `[[1,2],[2,3],[3,0]]` (the zero pad visible in the
corner), while the lag-covariance matrix — which matches the claim's formula
`C[i,i] = sum(ts^2)/N` and `C[i,j] = sum(ts[t]*ts[t+dt])/(N-dt)` — is
`[[14/3, 4], [4, 14/3]]`. -/
theorem toeplitz_factorization_input :
    toeplitzSvdInput [(1 : ℝ), 2, 3] 2 = toeplitzEmbed [(1 : ℝ), 2, 3] 2
    ∧ toeplitzEmbed [(1 : ℝ), 2, 3] 2 = !![(1 : ℝ), 2; 2, 3; 3, 0]
    ∧ toeplitzCovariance [(1 : ℝ), 2, 3] 2 = !![(14 / 3 : ℝ), 4; 4, 14 / 3] := by
  refine ⟨rfl, ?_, ?_⟩
  · ext i j
    fin_cases i <;> fin_cases j <;>
      simp [toeplitzEmbed, List.getD]
  · ext i j
    fin_cases i <;> fin_cases j <;>
      (simp [toeplitzCovariance, Finset.sum_range_succ, List.getD]; norm_num)

/-! ### The factory -/

/-- C10: for every input sequence and every kind other than `basic` and
`toeplitz`, the `ssa` factory raises only when the finiteness check — which
runs first — fails (`ValueError` on a NaN/Inf element); otherwise it
constructs no engine and returns the `None` that `ssa_object` still holds. -/
theorem factory_unknown_kind (ts : List PyFloat) (kind : String)
    (window : Option Int)
    (h1 : kind ≠ "basic") (h2 : kind ≠ "toeplitz") :
    ssaFactory ts kind window
      = if ts.all PyFloat.isFinite then Except.ok none
        else Except.error PyErr.valueErr := by
  cases hfin : ts.all PyFloat.isFinite with
  | false => simp [ssaFactory, hfin]
  | true => simp [ssaFactory, hfin, h1, h2]

/-- Witness for C10: kind `'foo'` on the finite sequence `(1, 2)` returns
`None`; with a NaN element the finiteness check raises `ValueError` first. -/
theorem factory_unknown_kind_witness :
    (("foo" : String) ≠ "basic")
    ∧ (("foo" : String) ≠ "toeplitz")
    ∧ (ssaFactory [PyFloat.fin 1, PyFloat.fin 2] "foo" none
        = if [PyFloat.fin 1, PyFloat.fin 2].all PyFloat.isFinite then Except.ok none
          else Except.error PyErr.valueErr)
    ∧ ssaFactory [PyFloat.fin 1, PyFloat.nan] "foo" none
        = Except.error PyErr.valueErr :=
  ⟨by decide, by decide,
    factory_unknown_kind [PyFloat.fin 1, PyFloat.fin 2] "foo" none
      (by decide) (by decide),
    rfl⟩

end Vassal
